import Mathlib

/-!
Verification of the proto-pi-embedded MAX7219 matrix driver and animation
playback engine: a shallow embedding of `proto_pi/matrix.py`,
`proto_pi/animation.py` and `proto_pi/rendering.py`, followed by theorems
settling the specification claims about them.

Conventions of the embedding:
* Python `int` values become `Int` (Python ints are unbounded); indices that
  the source guards with `assert 0 <= _` become `Nat` where the source value
  is provably non-negative by construction.
* Python `//` (floor division) becomes `Int.fdiv`; `%` on non-negative
  values becomes `Nat` `%`.
* `time.time_ns() // 1_000_000` becomes an explicit `now : Int` parameter.
* `random.uniform(start, end)` becomes an explicit oracle parameter
  `u : ℚ` (the drawn value in seconds); every call of the `hold` property
  receives its own draw, matching the source where each access re-draws.
* Hardware I/O (SPI writes) becomes an explicit list of `(command, data)`
  pairs returned by the operation.
-/

namespace ProtoPi

/-! ## Matrix driver: `proto_pi/matrix.py` -/

/-- One step of the CRC-8 polynomial 0x07 shift. -/
def crc8step (x : Nat) : Nat :=
  if 128 ≤ x then ((x * 2) % 256) ^^^ 7 else x * 2

/-- The CRC-8 value of a single byte index: eight shift steps. -/
def crc8byte (b : Nat) : Nat :=
  crc8step (crc8step (crc8step (crc8step (crc8step (crc8step (crc8step (crc8step b)))))))

/-- The 256-entry lookup table; reproduces the byte literal `_table` in
`matrix.py` (the standard CRC-8 table for polynomial 0x07; the literal's
first rows decode to 00 07 0e 09 1c 1b 12 15 38 3f ... exactly as
generated here). -/
def crcTable : List Nat := (List.range 256).map crc8byte

/-- `_crc82` from `matrix.py`: byte-wise table-driven CRC-8 over a buffer. -/
def crc82 (data : List Nat) : Nat :=
  data.foldl (fun s b => crcTable.getD (s ^^^ b) 0) 0

/-- Geometry and wiring configuration of a `Matrix` (the constructor
arguments that never change). -/
structure MatrixCfg where
  cols : Nat
  rows : Nat
  pixelsPerSide : Nat
  reverseIds : Bool
  skipDevices : List Nat
  deriving DecidableEq, Repr

/-- `Matrix.device_count`. -/
def device_count (cfg : MatrixCfg) : Nat := cfg.cols * cfg.rows

/-- Mutable driver state: the pixel buffer (one byte per 8-pixel row
segment) and the checksum cached at the last transmission. -/
structure MatrixState where
  buffer : List Nat
  checksum : Nat
  deriving DecidableEq, Repr

/-- `Matrix.current_checksum`. -/
def current_checksum (s : MatrixState) : Nat := crc82 s.buffer

/-- `Matrix.changed`. -/
def changed (s : MatrixState) : Bool := decide (current_checksum s ≠ s.checksum)

/-- `Matrix._get_buffer_index` (without its asserts, which the theorems
carry as hypotheses): the buffer byte index of row `row_number` of logical
device `device_id`. -/
def get_buffer_index (cfg : MatrixCfg) (device_id row_number : Nat) : Nat :=
  let d := if cfg.reverseIds then device_count cfg - device_id - 1 else device_id
  (d / cfg.cols * cfg.pixelsPerSide + row_number) * cfg.cols + d % cfg.cols

/-- `_NOOP` command constant. -/
def NOOP : Int := 0

/-- `_DIGIT_0` command constant. -/
def DIGIT0 : Int := 1

/-- `_INTENSITY` command constant. -/
def INTENSITY : Int := 10

/-- `Matrix._write`: one `(command, data)` pair is clocked to every device
of the chain inside a single chip-select frame. -/
def write_all (cfg : MatrixCfg) (command data : Int) : List (Int × Int) :=
  List.replicate (device_count cfg) (command, data)

/-- `Matrix._show_device`: the SPI traffic for one device — skipped
devices produce none; otherwise, for each of the 8 rows, no-op pairs for
the devices after it, the real command/data pair, then no-op pairs for the
devices before it. -/
def show_device (cfg : MatrixCfg) (buffer : List Nat) (device_id : Nat) :
    List (Int × Int) :=
  if device_id ∈ cfg.skipDevices then []
  else
    (List.range 8).flatMap fun row =>
      List.replicate (device_count cfg - (device_id + 1)) (NOOP, 0) ++
        [(DIGIT0 + row, (buffer.getD (get_buffer_index cfg device_id row) 0 : Int))] ++
        List.replicate device_id (NOOP, 0)

/-- The traffic of the transmission loop in `Matrix.show`. -/
def show_all (cfg : MatrixCfg) (buffer : List Nat) : List (Int × Int) :=
  (List.range (device_count cfg)).flatMap (show_device cfg buffer)

/-- `Matrix.show`: a no-op unless the buffer checksum differs from the
cached one or `force` is set; otherwise transmits every non-skipped device
and re-caches the checksum. Returns the new state and the SPI traffic. -/
def showM (cfg : MatrixCfg) (force : Bool) (s : MatrixState) :
    MatrixState × List (Int × Int) :=
  if changed s = false ∧ force = false then (s, [])
  else ({ s with checksum := current_checksum s }, show_all cfg s.buffer)

/-- `Matrix.brightness`: rejects values outside `0..15` before any bus
traffic; otherwise broadcasts one intensity command/data pair to the whole
chain. The state is returned untouched (the command never alters the
buffer or cached checksum). -/
def brightness (cfg : MatrixCfg) (s : MatrixState) (value : Int) :
    Except String (MatrixState × List (Int × Int)) :=
  if ¬(0 ≤ value ∧ value ≤ 15) then Except.error "Brightness out of range"
  else Except.ok (s, write_all cfg INTENSITY value)

/-! ## Animation playback: `proto_pi/animation.py` -/

/-- Immutable animation configuration (the constructor arguments of
`Animation` that playback never mutates). `durationMillis` and
`holdMillis` are the source's `int(duration * 1000)` / `int(hold * 1000)`;
`rhStart`/`rhEnd` are the `randomHold` range in seconds. -/
structure AnimCfg where
  frameCount : Nat
  durationMillis : Int
  holdMillis : Int
  rhStart : ℚ
  rhEnd : ℚ
  loop : Bool
  reverse : Bool
  deriving DecidableEq, Repr

/-- Mutable playback state of an `Animation`. `frameId` is `Int` because
the source can drive `_frame_id` negative. -/
structure AnimState where
  isPlaying : Bool
  isReversing : Bool
  frameId : Int
  startMillis : Int
  deriving DecidableEq, Repr

/-- Python `int()` applied to a rational: truncation toward zero. -/
def pyTrunc (q : ℚ) : Int := if 0 ≤ q then ⌊q⌋ else -⌊-q⌋

/-- The `Animation.hold` property. `u` is the oracle value of
`random.uniform(start, end)` for this access (in seconds). -/
def hold (cfg : AnimCfg) (u : ℚ) : Int :=
  if 0 < cfg.holdMillis then cfg.holdMillis
  else if cfg.rhEnd ≠ 0 ∧ cfg.rhStart < cfg.rhEnd then pyTrunc (u * 1000)
  else 0

/-- `Animation._frame_millis`: duration divided (Python floor division)
by the step count, which doubles minus one when `reverse` is set. -/
def frame_millis (cfg : AnimCfg) : Int :=
  let fc : Int :=
    if cfg.reverse = true then (cfg.frameCount : Int) * 2 - 1 else (cfg.frameCount : Int)
  Int.fdiv cfg.durationMillis fc

/-- The `is_last_frame` test used by `_next_millis` and `advance_frame`:
the last frame of the current direction. -/
def is_last_frame (cfg : AnimCfg) (s : AnimState) : Bool :=
  if s.isReversing = false then decide (s.frameId = (cfg.frameCount : Int) - 1)
  else decide (s.frameId = 0)

/-- `Animation._next_millis`: the scheduled (start-relative) time of the
next frame advance. The source reads the `hold` property twice (once in
the guard, once for the returned value), hence the two draw oracles
`u1`, `u2`. -/
def next_millis (cfg : AnimCfg) (s : AnimState) (u1 u2 : ℚ) : Int :=
  if s.isPlaying = false then 0
  else if 0 < hold cfg u1 ∧ is_last_frame cfg s = true then hold cfg u2
  else
    let fid : Int := s.frameId + 1
    let nm : Int :=
      if s.isReversing = false then fid * frame_millis cfg
      else ((cfg.frameCount : Int) * 2 - fid) * frame_millis cfg
    if cfg.loop = true ∧ s.isReversing = true ∧ is_last_frame cfg s = true then
      nm - frame_millis cfg
    else nm

/-- `Animation._current_millis`: elapsed time since the start timestamp. -/
def current_millis (s : AnimState) (now : Int) : Int := now - s.startMillis

/-- `Animation.should_advance`: the chained comparison
`current >= next > 0 and is_playing` (the `_next_millis` property is
evaluated once). -/
def should_advance (cfg : AnimCfg) (s : AnimState) (now : Int) (u1 u2 : ℚ) : Bool :=
  (decide (current_millis s now ≥ next_millis cfg s u1 u2) &&
    decide (0 < next_millis cfg s u1 u2)) && s.isPlaying

/-- `Animation.play`. -/
def play (now : Int) : AnimState :=
  { isPlaying := true, isReversing := false, frameId := 0, startMillis := now }

/-- `Animation.pause`. -/
def pause (s : AnimState) : AnimState := { s with isPlaying := false }

/-- `Animation.resume`. -/
def resume (s : AnimState) (now : Int) : AnimState :=
  { s with isPlaying := true, startMillis := now - current_millis s now }

/-- The state established by `Animation.stop` (also the `__init__`
playback state: not playing, frame 0, forward, zero start timestamp). -/
def stopped : AnimState :=
  { isPlaying := false, isReversing := false, frameId := 0, startMillis := 0 }

/-- `Animation.advance_frame`, at wall-clock `now`, with the draw oracles
of the single `should_advance` evaluation it performs. -/
def advance_frame (cfg : AnimCfg) (s : AnimState) (now : Int) (u1 u2 : ℚ) : AnimState :=
  if should_advance cfg s now u1 u2 = false then s
  else if s.frameId = (cfg.frameCount : Int) - 1 ∧ cfg.reverse = true ∧ s.isReversing = false then
    { s with isReversing := true, frameId := (cfg.frameCount : Int) - 2 }
  else if is_last_frame cfg s = true ∧ cfg.loop = false then stopped
  else if is_last_frame cfg s = true ∧ cfg.loop = true then
    { s with isReversing := false, frameId := 0, startMillis := now }
  else { s with frameId := s.frameId + (if s.isReversing = false then 1 else -1) }

/-- The playback invariant of the data-model claim: the frame index stays
inside `[0, frameCount)` and reversal only occurs when `reverse` is
enabled. -/
def Inv (cfg : AnimCfg) (s : AnimState) : Prop :=
  0 ≤ s.frameId ∧ s.frameId < (cfg.frameCount : Int) ∧
    (s.isReversing = true → cfg.reverse = true)

instance (cfg : AnimCfg) (s : AnimState) : Decidable (Inv cfg s) := by
  unfold Inv; infer_instance

/-- The hold-resolution rule as the specification words it (for
comparison with the source's `hold`): the random branch is guarded by
`end > start` alone, where the source also requires `end != 0`. -/
def holdClaim (cfg : AnimCfg) (u : ℚ) : Int :=
  if 0 < cfg.holdMillis then cfg.holdMillis
  else if cfg.rhStart < cfg.rhEnd then pyTrunc (u * 1000)
  else 0

/-- The configuration of the reverse-playback (ping-pong) scenario: `F`
frames, `D` milliseconds duration, no hold, no loop, `reverse = true`. -/
def ping_cfg (F : Nat) (D : Int) : AnimCfg :=
  { frameCount := F, durationMillis := D, holdMillis := 0, rhStart := 0, rhEnd := 0,
    loop := false, reverse := true }

/-- The idealized event trace of the ping-pong scenario: state 0 is the
state right after `play()` at time 0; state `k+1` is `advance_frame`
fired exactly at the scheduled time of the next frame. -/
def ping_run (F : Nat) (D : Int) : Nat → AnimState
  | 0 => play 0
  | k + 1 =>
    advance_frame (ping_cfg F D) (ping_run F D k)
      (next_millis (ping_cfg F D) (ping_run F D k) 0 0) 0 0

/-- The expected frame index after `k` steps of a round trip:
`0, 1, ..., F-1, F-2, ..., 1, 0`. -/
def ping_frame (F k : Nat) : Int :=
  if k < F then (k : Int) else 2 * (F : Int) - 2 - (k : Int)

/-- The expected playback state after `k` steps of the round trip
(`k ≤ 2F-2`): playing, reversing from step `F` on, at frame
`ping_frame F k`, start timestamp 0. -/
def ping_state (F k : Nat) : AnimState :=
  { isPlaying := true, isReversing := decide (F ≤ k), frameId := ping_frame F k,
    startMillis := 0 }

/-! ## Rendering: `proto_pi/rendering.py` -/

/-- The pixel plane of a `FrameBuffer`, as a total function from
coordinates to the pixel value. -/
def Grid : Type := Nat → Nat → Bool

/-- The three-statement pixel swap in the bodies of `mirror` and `flip`:
save `(x, y)`, copy `(x', y')` into `(x, y)`, write the saved value to
`(x', y')`. -/
def swap_pixels (g : Grid) (x y x' y' : Nat) : Grid :=
  fun i j =>
    if i = x' ∧ j = y' then g x y
    else if i = x ∧ j = y then g x' y'
    else g i j

/-- The inner loop of `Renderable.mirror` on row `y`: the swaps for
`x = 0, 1, ..., k-1`, each pairing `x` with `width - x - 1`. -/
def mirror_x_loop (g : Grid) (width y : Nat) : Nat → Grid
  | 0 => g
  | k + 1 => swap_pixels (mirror_x_loop g width y k) k y (width - k - 1) y

/-- The outer loop of `Renderable.mirror`: the inner loop over
`x ∈ [0, width / 2)` for rows `y = 0, 1, ..., j-1`. -/
def mirror_y_loop (g : Grid) (width : Nat) : Nat → Grid
  | 0 => g
  | j + 1 => mirror_x_loop (mirror_y_loop g width j) width j (width / 2)

/-- The inner loop of `Renderable.flip` for row pair `(y, height - y - 1)`:
the swaps for `x = 0, 1, ..., k-1`. -/
def flip_x_loop (g : Grid) (height y : Nat) : Nat → Grid
  | 0 => g
  | k + 1 => swap_pixels (flip_x_loop g height y k) k y k (height - y - 1)

/-- The outer loop of `Renderable.flip`: the inner loop over the full
width for rows `y = 0, 1, ..., j-1`. -/
def flip_y_loop (g : Grid) (width height : Nat) : Nat → Grid
  | 0 => g
  | j + 1 => flip_x_loop (flip_y_loop g width height j) height j width

/-- A `Renderable`: dimensions plus the pixel plane. -/
structure Renderable where
  width : Nat
  height : Nat
  pix : Grid

/-- `Renderable.mirror`: swap the two halves of every row in place. -/
def Renderable.mirror (r : Renderable) : Renderable :=
  { r with pix := mirror_y_loop r.pix r.width r.height }

/-- `Renderable.flip`: swap the two halves of every column in place. -/
def Renderable.flip (r : Renderable) : Renderable :=
  { r with pix := flip_y_loop r.pix r.width r.height (r.height / 2) }

/-! ## Claim C2: the buffer-index formula -/

/-- C2: for every grid with `cols` columns, `rows` rows and 8 pixels per
side, and every device index `d < cols*rows` and row `r < 8`,
`_get_buffer_index(d, r)` equals `((d' / cols) * 8 + r) * cols + d' % cols`
where `d' = cols*rows - d - 1` under `reverseIds` and `d' = d` otherwise;
in particular, for a 3×3 grid without id reversal, device 4 row 2 maps to
buffer index 31. -/
theorem C2_buffer_index (cols rows : Nat) (rev : Bool) (skip : List Nat)
    (d r : Nat) (hd : d < cols * rows) (hr : r < 8) :
    get_buffer_index ⟨cols, rows, 8, rev, skip⟩ d r =
      (let dt := if rev then cols * rows - d - 1 else d
       (dt / cols * 8 + r) * cols + dt % cols) ∧
    get_buffer_index ⟨3, 3, 8, false, []⟩ 4 2 = 31 := by
  exact ⟨rfl, by decide⟩

/-- Witness for C2 at the 3×3 scenario: device 4, row 2. -/
theorem C2_buffer_index_witness :
    get_buffer_index ⟨3, 3, 8, false, []⟩ 4 2 = 31 :=
  (C2_buffer_index 3 3 false [] 4 2 (by decide) (by decide)).2

/-! ## Claim C9: brightness range check -/

/-- C9: `brightness(value)` with `value` outside `0..15` errors out before
any bus traffic and leaves the driver state untouched (the returned
exception carries no write and no new state); a value inside `0..15` issues
exactly one intensity command/data pair broadcast to every device of the
chain, also leaving the buffer and checksum untouched. -/
theorem C9_brightness (cfg : MatrixCfg) (s : MatrixState) (value : Int) :
    (¬(0 ≤ value ∧ value ≤ 15) →
      brightness cfg s value = Except.error "Brightness out of range") ∧
    ((0 ≤ value ∧ value ≤ 15) →
      brightness cfg s value =
        Except.ok (s, List.replicate (device_count cfg) (INTENSITY, value))) := by
  unfold brightness write_all
  constructor
  · intro h; rw [if_pos h]
  · intro h; rw [if_neg (by simpa using h)]

/-- Witness for C9: value 20 is rejected, value 7 is broadcast on a
single-device chain. -/
theorem C9_brightness_witness :
    brightness ⟨1, 1, 8, false, []⟩ ⟨List.replicate 8 0, 0⟩ 20 =
      Except.error "Brightness out of range" ∧
    brightness ⟨1, 1, 8, false, []⟩ ⟨List.replicate 8 0, 0⟩ 7 =
      Except.ok (⟨List.replicate 8 0, 0⟩, [(INTENSITY, 7)]) :=
  ⟨(C9_brightness _ _ 20).1 (by decide), (C9_brightness _ _ 7).2 (by decide)⟩

/-! ## Claim C7: the should-advance predicate -/

/-- C7: `should_advance` is true iff the animation is playing, the elapsed
time since the start timestamp has reached the scheduled next-frame time,
and that scheduled time is strictly positive; consequently a zero
scheduled time (as for a zero-duration animation) never auto-advances. -/
theorem C7_should_advance (cfg : AnimCfg) (s : AnimState) (now : Int) (u1 u2 : ℚ) :
    (should_advance cfg s now u1 u2 = true ↔
      s.isPlaying = true ∧ next_millis cfg s u1 u2 ≤ current_millis s now ∧
        0 < next_millis cfg s u1 u2) ∧
    (next_millis cfg s u1 u2 = 0 → should_advance cfg s now u1 u2 = false) := by
  unfold should_advance
  constructor
  · simp [ge_iff_le]; tauto
  · intro h; simp [h]

/-- Witness for C7: a zero-duration, hold-free animation has scheduled
next time 0 right after `play()`, so it never advances. -/
theorem C7_should_advance_witness :
    should_advance ⟨3, 0, 0, 0, 0, false, false⟩ (play 0) 999 0 0 = false :=
  (C7_should_advance ⟨3, 0, 0, 0, 0, false, false⟩ (play 0) 999 0 0).2 (by decide)

/-! ## Claim C4: checksum-gated transmission -/

/-- C4: `show()` performs no hardware transmission (and leaves the state
untouched) when the buffer's CRC-8 checksum equals the cached one and
`force` is not passed; calling `show()` twice without touching the buffer
transmits at most once; and a `show()` that does transmit caches exactly
the checksum of the buffer it transmitted, leaving the buffer itself
untouched. -/
theorem C4_show_checksum (cfg : MatrixCfg) (s : MatrixState) :
    (current_checksum s = s.checksum → showM cfg false s = (s, [])) ∧
    ((showM cfg false s).2 ≠ [] → (showM cfg false (showM cfg false s).1).2 = []) ∧
    (∀ force : Bool, (showM cfg force s).2 ≠ [] →
      (showM cfg force s).1.checksum = crc82 s.buffer ∧
      (showM cfg force s).1.buffer = s.buffer) := by
  refine ⟨fun h => ?_, fun h => ?_, fun force h => ?_⟩
  · unfold showM
    rw [if_pos ⟨by simp [changed, h], rfl⟩]
  · unfold showM at h ⊢
    by_cases hc : changed s = false ∧ false = false
    · rw [if_pos hc] at h; simp at h
    · rw [if_neg hc] at h ⊢
      rw [if_pos ⟨by simp [changed, current_checksum], rfl⟩]
  · unfold showM at h ⊢
    by_cases hc : changed s = false ∧ force = false
    · rw [if_pos hc] at h; simp at h
    · rw [if_neg hc] at h ⊢; exact ⟨rfl, rfl⟩

/-- Witness for C4 on a single-device chain: a clean buffer is not
retransmitted; a dirty buffer (cached checksum 99, actual CRC 72) is
transmitted once, after which the cached checksum is the buffer's CRC and
a second `show()` transmits nothing. -/
theorem C4_show_checksum_witness :
    showM ⟨1, 1, 8, false, []⟩ false ⟨[1, 2, 3, 4, 5, 6, 7, 8], crc82 [1, 2, 3, 4, 5, 6, 7, 8]⟩ =
      (⟨[1, 2, 3, 4, 5, 6, 7, 8], crc82 [1, 2, 3, 4, 5, 6, 7, 8]⟩, []) ∧
    (showM ⟨1, 1, 8, false, []⟩ false
        (showM ⟨1, 1, 8, false, []⟩ false ⟨[1, 2, 3, 4, 5, 6, 7, 8], 99⟩).1).2 = [] ∧
    (showM ⟨1, 1, 8, false, []⟩ false ⟨[1, 2, 3, 4, 5, 6, 7, 8], 99⟩).1.checksum =
      crc82 [1, 2, 3, 4, 5, 6, 7, 8] :=
  ⟨(C4_show_checksum ⟨1, 1, 8, false, []⟩ ⟨[1, 2, 3, 4, 5, 6, 7, 8],
      crc82 [1, 2, 3, 4, 5, 6, 7, 8]⟩).1 rfl,
   (C4_show_checksum ⟨1, 1, 8, false, []⟩ ⟨[1, 2, 3, 4, 5, 6, 7, 8], 99⟩).2.1 (by decide),
   ((C4_show_checksum ⟨1, 1, 8, false, []⟩ ⟨[1, 2, 3, 4, 5, 6, 7, 8], 99⟩).2.2 false
      (by decide)).1⟩

/-! ## Claim C6: hold resolution and where hold applies (corrected) -/

/-- Counterexample to C6 as stated: with a fixed hold of 0 and the
`randomHold` range `start = -1, end = 0`, the claim's resolution rule
(`end > start` holds, so the hold is the drawn value — here the draw
`-1/2` s, i.e. `-500` ms) disagrees with the source, whose
`end != 0 and start < end` guard fails, yielding 0. -/
theorem C6_counterexample :
    ((-1 : ℚ) < 0) ∧
    hold ⟨2, 1000, 0, -1, 0, false, false⟩ (-(1 : ℚ) / 2) = 0 ∧
    holdClaim ⟨2, 1000, 0, -1, 0, false, false⟩ (-(1 : ℚ) / 2) = -500 ∧
    hold ⟨2, 1000, 0, -1, 0, false, false⟩ (-(1 : ℚ) / 2) ≠
      holdClaim ⟨2, 1000, 0, -1, 0, false, false⟩ (-(1 : ℚ) / 2) := by
  refine ⟨by norm_num, ?_, ?_, ?_⟩ <;>
    simp [hold, holdClaim, pyTrunc] <;> norm_num

/-- C6 (amended): hold affects the scheduled next-frame time only at the
last frame of the current direction — away from it the schedule is the
pure step formula, independent of the hold configuration and of the
random draws; at the terminal frame a positive resolved hold becomes the
schedule; and `hold` resolves to the fixed value when that is positive,
otherwise to the (truncated) uniform draw when the `randomHold` range has
`end ≠ 0` and `start < end` (for ranges with `start ≥ 0` this is exactly
the claim's `end > start`), otherwise to 0. -/
theorem C6_hold_semantics (cfg : AnimCfg) (s : AnimState) (u u1 u2 : ℚ) :
    (s.isPlaying = true → is_last_frame cfg s = false →
      next_millis cfg s u1 u2 =
        (if s.isReversing = false then (s.frameId + 1) * frame_millis cfg
         else ((cfg.frameCount : Int) * 2 - (s.frameId + 1)) * frame_millis cfg)) ∧
    (s.isPlaying = true → is_last_frame cfg s = true → 0 < hold cfg u1 →
      next_millis cfg s u1 u2 = hold cfg u2) ∧
    (0 < cfg.holdMillis → hold cfg u = cfg.holdMillis) ∧
    (cfg.holdMillis ≤ 0 → cfg.rhEnd ≠ 0 → cfg.rhStart < cfg.rhEnd →
      hold cfg u = pyTrunc (u * 1000)) ∧
    (cfg.holdMillis ≤ 0 → ¬(cfg.rhEnd ≠ 0 ∧ cfg.rhStart < cfg.rhEnd) →
      hold cfg u = 0) ∧
    (0 ≤ cfg.rhStart → hold cfg u = holdClaim cfg u) := by
  refine ⟨fun hp hl => ?_, fun hp hl hh => ?_, fun h => ?_, fun h1 h2 h3 => ?_,
    fun h1 h2 => ?_, fun h0 => ?_⟩
  · unfold next_millis
    rw [if_neg (by simp [hp]), if_neg (by simp [hl]), if_neg (by simp [hl])]
  · unfold next_millis
    rw [if_neg (by simp [hp]), if_pos ⟨hh, hl⟩]
  · unfold hold; rw [if_pos h]
  · unfold hold; rw [if_neg (by omega), if_pos ⟨h2, h3⟩]
  · unfold hold; rw [if_neg (by omega), if_neg h2]
  · unfold hold holdClaim
    by_cases hm : 0 < cfg.holdMillis
    · rw [if_pos hm, if_pos hm]
    · rw [if_neg hm, if_neg hm]
      by_cases hse : cfg.rhStart < cfg.rhEnd
      · rw [if_pos ⟨fun he => absurd h0 (not_le.mpr (he ▸ hse)), hse⟩, if_pos hse]
      · rw [if_neg (by tauto), if_neg hse]

/-- Witness for C6: a fixed 500 ms hold on a playing 3-frame animation —
away from the last frame the schedule is one step, at the last frame it
is the hold. -/
theorem C6_hold_semantics_witness :
    next_millis ⟨3, 1500, 500, 0, 0, false, false⟩ ⟨true, false, 0, 0⟩ 0 0 = 500 ∧
    next_millis ⟨3, 1500, 500, 0, 0, false, false⟩ ⟨true, false, 2, 0⟩ 0 0 = 500 ∧
    hold ⟨3, 1500, 500, 0, 0, false, false⟩ 0 = 500 := by
  refine ⟨?_, ?_, ?_⟩
  · have h := (C6_hold_semantics ⟨3, 1500, 500, 0, 0, false, false⟩
      ⟨true, false, 0, 0⟩ 0 0 0).1 rfl (by decide)
    rw [h]; decide
  · have h := (C6_hold_semantics ⟨3, 1500, 500, 0, 0, false, false⟩
      ⟨true, false, 2, 0⟩ 0 0 0).2.1 rfl (by decide) (by decide)
    rw [h]; decide
  · exact (C6_hold_semantics ⟨3, 1500, 500, 0, 0, false, false⟩
      ⟨true, false, 0, 0⟩ 0 0 0).2.2.1 (by decide)

/-! ## Claim C5: loop restart at the terminal frame (corrected) -/

/-- Counterexample to C5 as stated: a playing animation with `loop = true`
and `reverse = true` at its last forward frame `F-1 = 2` (with
`F = 3`, 2100 ms duration, due at 1260 ms) does not restart at frame 0:
`advance_frame` instead enters the reverse pass at frame 1 and keeps the
old start timestamp. -/
theorem C5_counterexample :
    should_advance ⟨3, 2100, 0, 0, 0, true, true⟩ ⟨true, false, 2, 0⟩ 1260 0 0 = true ∧
    advance_frame ⟨3, 2100, 0, 0, 0, true, true⟩ ⟨true, false, 2, 0⟩ 1260 0 0 =
      ⟨true, true, 1, 0⟩ ∧
    advance_frame ⟨3, 2100, 0, 0, 0, true, true⟩ ⟨true, false, 2, 0⟩ 1260 0 0 ≠
      ⟨true, false, 0, 1260⟩ := by
  refine ⟨by decide, by decide, by decide⟩

/-- C5 (amended): for a playing animation with `loop = true`, when
`advance_frame` fires at the terminal frame of the current direction —
frame `F-1` going forward with `reverse` disabled, or frame 0 while
reversing — it resets the frame index to 0, the direction to forward,
and the start timestamp to now (so a loop always restarts forward, even
if it had been reversing). At frame `F-1` going forward with `reverse`
enabled, the turn into the reverse pass takes precedence instead. -/
theorem C5_loop_restart (cfg : AnimCfg) (s : AnimState) (now : Int) (u1 u2 : ℚ)
    (hadv : should_advance cfg s now u1 u2 = true)
    (hloop : cfg.loop = true)
    (hterm : (s.isReversing = true ∧ s.frameId = 0) ∨
      (s.isReversing = false ∧ s.frameId = (cfg.frameCount : Int) - 1 ∧
        cfg.reverse = false)) :
    advance_frame cfg s now u1 u2 =
      { s with isReversing := false, frameId := 0, startMillis := now } := by
  unfold advance_frame
  rw [if_neg (by simp [hadv])]
  rcases hterm with ⟨hrev, hfid⟩ | ⟨hrev, hfid, hnorev⟩
  · rw [if_neg (by simp [hrev]), if_neg ?_, if_pos ?_]
    · exact ⟨by simp [is_last_frame, hrev, hfid], hloop⟩
    · simp [hloop]
  · rw [if_neg (by simp [hnorev]), if_neg ?_, if_pos ?_]
    · exact ⟨by simp [is_last_frame, hrev, hfid], hloop⟩
    · simp [hloop]

/-- Witness for C5, both terminal shapes: a forward-only 3-frame loop at
frame 2 (due at 1500 ms) restarts at frame 0 with start 1500; a reversing
ping-pong loop at frame 0 (due at 1680 ms) restarts forward at frame 0
with start 1680. -/
theorem C5_loop_restart_witness :
    advance_frame ⟨3, 1500, 0, 0, 0, true, false⟩ ⟨true, false, 2, 0⟩ 1500 0 0 =
      ⟨true, false, 0, 1500⟩ ∧
    advance_frame ⟨3, 2100, 0, 0, 0, true, true⟩ ⟨true, true, 0, 0⟩ 1680 0 0 =
      ⟨true, false, 0, 1680⟩ :=
  ⟨C5_loop_restart ⟨3, 1500, 0, 0, 0, true, false⟩ ⟨true, false, 2, 0⟩ 1500 0 0
      (by decide) rfl (Or.inr ⟨rfl, by decide, rfl⟩),
   C5_loop_restart ⟨3, 2100, 0, 0, 0, true, true⟩ ⟨true, true, 0, 0⟩ 1680 0 0
      (by decide) rfl (Or.inl ⟨rfl, rfl⟩)⟩

/-! ## Claim C3: the playback invariant (corrected) -/

/-- Counterexample to C3 as stated: with `frameCount = 1` and
`reverse = true` (1000 ms duration), the invariant holds right after
`play()`, yet the due `advance_frame` at 1000 ms takes the reversal
branch and sets the frame index to `F - 2 = -1`, breaking
`0 ≤ frameIndex`. -/
theorem C3_counterexample :
    Inv ⟨1, 1000, 0, 0, 0, false, true⟩ ⟨true, false, 0, 0⟩ ∧
    ¬ Inv ⟨1, 1000, 0, 0, 0, false, true⟩
      (advance_frame ⟨1, 1000, 0, 0, 0, false, true⟩ ⟨true, false, 0, 0⟩ 1000 0 0) ∧
    (advance_frame ⟨1, 1000, 0, 0, 0, false, true⟩ ⟨true, false, 0, 0⟩ 1000 0 0).frameId
      = -1 := by
  refine ⟨by decide, by decide, by decide⟩

/-- C3 (amended): for every animation with at least one frame, the
invariant `0 ≤ frameIndex < frameCount ∧ (isReversing → reverse)` holds
for the constructed/stopped state and after `play()`, and is preserved by
`pause()`, `resume()` and `stop()`; it is preserved by `advance_frame`
when `frameCount ≥ 2` or `reverse` is disabled (with a single frame and
`reverse` enabled, the turn branch escapes to frame index `-1`). -/
theorem C3_invariant (cfg : AnimCfg) (s : AnimState) (now : Int) (u1 u2 : ℚ)
    (hF : 1 ≤ cfg.frameCount) (hs : Inv cfg s) :
    Inv cfg stopped ∧ Inv cfg (play now) ∧ Inv cfg (pause s) ∧
    Inv cfg (resume s now) ∧
    (2 ≤ cfg.frameCount ∨ cfg.reverse = false →
      Inv cfg (advance_frame cfg s now u1 u2)) := by
  obtain ⟨h0, h1, h2⟩ := hs
  have hF' : (0 : Int) < (cfg.frameCount : Int) := by omega
  refine ⟨⟨le_refl 0, hF', fun h => nomatch h⟩,
    ⟨le_refl 0, hF', fun h => nomatch h⟩,
    ⟨h0, h1, h2⟩, ⟨h0, h1, h2⟩, fun hF2 => ?_⟩
  by_cases hadv : should_advance cfg s now u1 u2 = false
  · rw [advance_frame, if_pos hadv]; exact ⟨h0, h1, h2⟩
  rw [advance_frame, if_neg hadv]
  by_cases hturn : s.frameId = (cfg.frameCount : Int) - 1 ∧ cfg.reverse = true ∧
      s.isReversing = false
  · rw [if_pos hturn]
    have hF2' : 2 ≤ cfg.frameCount := by
      rcases hF2 with h | h
      · exact h
      · rw [hturn.2.1] at h; cases h
    exact ⟨show (0 : Int) ≤ (cfg.frameCount : Int) - 2 by omega,
      show (cfg.frameCount : Int) - 2 < (cfg.frameCount : Int) by omega,
      fun _ => hturn.2.1⟩
  rw [if_neg hturn]
  by_cases hstop : is_last_frame cfg s = true ∧ cfg.loop = false
  · rw [if_pos hstop]
    exact ⟨le_refl 0, hF', fun h => nomatch h⟩
  rw [if_neg hstop]
  by_cases hrestart : is_last_frame cfg s = true ∧ cfg.loop = true
  · rw [if_pos hrestart]
    exact ⟨le_refl 0, hF', fun h => nomatch h⟩
  rw [if_neg hrestart]
  have hnotlast : is_last_frame cfg s = false := by
    cases h : is_last_frame cfg s
    · rfl
    · cases hl : cfg.loop
      · exact absurd ⟨h, hl⟩ hstop
      · exact absurd ⟨h, hl⟩ hrestart
  cases hr : s.isReversing
  · have hne : s.frameId ≠ (cfg.frameCount : Int) - 1 := by
      rw [is_last_frame, hr] at hnotlast
      simpa using hnotlast
    refine ⟨?_, ?_, fun h => nomatch h⟩
    · simp only [AnimState.frameId]; norm_num; omega
    · simp only [AnimState.frameId]; norm_num; omega
  · have hne : s.frameId ≠ 0 := by
      rw [is_last_frame, hr] at hnotlast
      simpa using hnotlast
    refine ⟨?_, ?_, fun _ => h2 hr⟩
    · simp only [AnimState.frameId]; norm_num; omega
    · simp only [AnimState.frameId]; norm_num; omega

/-- Witness for C3 on a concrete reversing 4-frame animation: the
invariant survives the due `advance_frame` and holds after `play()`. -/
theorem C3_invariant_witness :
    Inv (ping_cfg 4 2000)
      (advance_frame (ping_cfg 4 2000) ⟨true, false, 0, 0⟩ 285 0 0) ∧
    Inv (ping_cfg 4 2000) (play 7) :=
  ⟨(C3_invariant (ping_cfg 4 2000) ⟨true, false, 0, 0⟩ 285 0 0 (by decide)
      (by decide)).2.2.2.2 (Or.inl (by decide)),
   (C3_invariant (ping_cfg 4 2000) ⟨true, false, 0, 0⟩ 7 0 0 (by decide)
      (by decide)).2.1⟩

/-! ## Claim C8: the addressing map is a bijection -/

/-- Division and remainder of a mixed-radix composition `a * b + m` with
`m < b`. -/
theorem mul_add_div_mod_self {b : Nat} (hb : 0 < b) (a m : Nat) (hm : m < b) :
    (a * b + m) / b = a ∧ (a * b + m) % b = m := by
  constructor
  · rw [Nat.mul_comm a b, Nat.mul_add_div hb]
    simp [Nat.div_eq_of_lt hm]
  · rw [Nat.mul_comm a b, Nat.mul_add_mod]
    exact Nat.mod_eq_of_lt hm

/-- A mixed-radix composition `a * b + m` with `m < b` determines its
digits. -/
theorem mixed_radix_inj {b : Nat} (hb : 0 < b) {a1 m1 a2 m2 : Nat}
    (hm1 : m1 < b) (hm2 : m2 < b) (e : a1 * b + m1 = a2 * b + m2) :
    a1 = a2 ∧ m1 = m2 := by
  obtain ⟨d1, md1⟩ := mul_add_div_mod_self hb a1 m1 hm1
  obtain ⟨d2, md2⟩ := mul_add_div_mod_self hb a2 m2 hm2
  exact ⟨by rw [← d1, ← d2, e], by rw [← md1, ← md2, e]⟩

/-- The raw (un-reversed) addressing value stays below the buffer size. -/
theorem raw_index_lt (cols rows d r : Nat) (hd : d < cols * rows) (hr : r < 8) :
    (d / cols * 8 + r) * cols + d % cols < cols * rows * 8 := by
  have hc : 0 < cols := by
    rcases Nat.eq_zero_or_pos cols with h | h
    · subst h; simp at hd
    · exact h
  have hdiv : d / cols < rows := by
    rw [Nat.div_lt_iff_lt_mul hc]
    have h' : rows * cols = cols * rows := by ring
    omega
  have hmod : d % cols < cols := Nat.mod_lt _ hc
  calc (d / cols * 8 + r) * cols + d % cols
      < (d / cols * 8 + r) * cols + cols := by omega
    _ = (d / cols * 8 + r + 1) * cols := by ring
    _ ≤ (rows * 8) * cols := Nat.mul_le_mul_right _ (by omega)
    _ = cols * rows * 8 := by ring

/-- The raw addressing value determines device and row. -/
theorem raw_index_inj (cols rows : Nat) {d1 r1 d2 r2 : Nat}
    (hd1 : d1 < cols * rows) (hr1 : r1 < 8) (hd2 : d2 < cols * rows) (hr2 : r2 < 8)
    (e : (d1 / cols * 8 + r1) * cols + d1 % cols =
      (d2 / cols * 8 + r2) * cols + d2 % cols) : d1 = d2 ∧ r1 = r2 := by
  have hc : 0 < cols := by
    rcases Nat.eq_zero_or_pos cols with h | h
    · subst h; simp at hd1
    · exact h
  obtain ⟨eq1, eqm⟩ := mixed_radix_inj hc (Nat.mod_lt _ hc) (Nat.mod_lt _ hc) e
  obtain ⟨eqq, eqr⟩ := mixed_radix_inj (b := 8) (by norm_num) hr1 hr2 eq1
  refine ⟨?_, eqr⟩
  have g1 := Nat.div_add_mod d1 cols
  have g2 := Nat.div_add_mod d2 cols
  rw [← g1, ← g2, eqq, eqm]

/-- Every buffer index is hit by the raw addressing map. -/
theorem raw_index_surj (cols rows i : Nat) (hi : i < cols * rows * 8) :
    ∃ d r, d < cols * rows ∧ r < 8 ∧ (d / cols * 8 + r) * cols + d % cols = i := by
  have hc : 0 < cols := by
    rcases Nat.eq_zero_or_pos cols with h | h
    · subst h; simp at hi
    · exact h
  have hic := Nat.div_add_mod i cols
  have hclt : i % cols < cols := Nat.mod_lt _ hc
  have hq : i / cols < rows * 8 := by
    rw [Nat.div_lt_iff_lt_mul hc]
    have h' : rows * 8 * cols = cols * rows * 8 := by ring
    omega
  have hqr := Nat.div_add_mod (i / cols) 8
  have hrlt : i / cols % 8 < 8 := Nat.mod_lt _ (by norm_num)
  have hdq : i / cols / 8 < rows := by omega
  refine ⟨i / cols / 8 * cols + i % cols, i / cols % 8, ?_, hrlt, ?_⟩
  · calc i / cols / 8 * cols + i % cols
        < i / cols / 8 * cols + cols := by omega
      _ = (i / cols / 8 + 1) * cols := by ring
      _ ≤ rows * cols := Nat.mul_le_mul_right _ (by omega)
      _ = cols * rows := by ring
  · obtain ⟨hdiv, hmod⟩ := mul_add_div_mod_self hc (i / cols / 8) (i % cols) hclt
    rw [hdiv, hmod]
    have h8 : i / cols / 8 * 8 + i / cols % 8 = i / cols := by omega
    rw [h8, Nat.mul_comm]
    exact hic

/-- Unfolding `_get_buffer_index` on an 8-pixel-per-side grid without id
reversal. -/
theorem get_buffer_index_false (cols rows : Nat) (skip : List Nat) (d r : Nat) :
    get_buffer_index ⟨cols, rows, 8, false, skip⟩ d r =
      (d / cols * 8 + r) * cols + d % cols := rfl

/-- Unfolding `_get_buffer_index` on an 8-pixel-per-side grid with id
reversal. -/
theorem get_buffer_index_true (cols rows : Nat) (skip : List Nat) (d r : Nat) :
    get_buffer_index ⟨cols, rows, 8, true, skip⟩ d r =
      ((cols * rows - d - 1) / cols * 8 + r) * cols +
        (cols * rows - d - 1) % cols := rfl

/-- C8: for fixed `cols`, `rows` and `reverseIds`, the addressing map
`(device, row) ↦ _get_buffer_index(device, row)` is a bijection from
`[0, cols*rows) × [0, 8)` onto `[0, cols*rows*8)`: every image is in
range, distinct pairs map to distinct indices, and every index is hit. -/
theorem C8_addressing_bijective (cols rows : Nat) (rev : Bool) (skip : List Nat) :
    (∀ d r, d < cols * rows → r < 8 →
      get_buffer_index ⟨cols, rows, 8, rev, skip⟩ d r < cols * rows * 8) ∧
    (∀ d1 r1 d2 r2, d1 < cols * rows → r1 < 8 → d2 < cols * rows → r2 < 8 →
      get_buffer_index ⟨cols, rows, 8, rev, skip⟩ d1 r1 =
        get_buffer_index ⟨cols, rows, 8, rev, skip⟩ d2 r2 → d1 = d2 ∧ r1 = r2) ∧
    (∀ i, i < cols * rows * 8 → ∃ d r, d < cols * rows ∧ r < 8 ∧
      get_buffer_index ⟨cols, rows, 8, rev, skip⟩ d r = i) := by
  refine ⟨fun d r hd hr => ?_, fun d1 r1 d2 r2 hd1 hr1 hd2 hr2 e => ?_,
    fun i hi => ?_⟩
  · cases rev
    · rw [get_buffer_index_false]
      exact raw_index_lt cols rows d r hd hr
    · rw [get_buffer_index_true]
      exact raw_index_lt cols rows _ r (by omega) hr
  · cases rev
    · rw [get_buffer_index_false, get_buffer_index_false] at e
      exact raw_index_inj cols rows hd1 hr1 hd2 hr2 e
    · rw [get_buffer_index_true, get_buffer_index_true] at e
      have ht1 : cols * rows - d1 - 1 < cols * rows := by omega
      have ht2 : cols * rows - d2 - 1 < cols * rows := by omega
      obtain ⟨hdd, hrr⟩ := raw_index_inj cols rows ht1 hr1 ht2 hr2 e
      exact ⟨by omega, hrr⟩
  · obtain ⟨d, r, hd, hr, he⟩ := raw_index_surj cols rows i hi
    cases rev
    · exact ⟨d, r, hd, hr, by rw [get_buffer_index_false]; exact he⟩
    · refine ⟨cols * rows - d - 1, r, by omega, hr, ?_⟩
      rw [get_buffer_index_true]
      have hd' : cols * rows - (cols * rows - d - 1) - 1 = d := by omega
      rw [hd']
      exact he

/-- Witness for C8 on the 3×3 grid: the image of device 4, row 2 is in
range, and buffer index 31 is hit by some device/row pair. -/
theorem C8_addressing_bijective_witness :
    get_buffer_index ⟨3, 3, 8, false, []⟩ 4 2 < 3 * 3 * 8 ∧
    (∃ d r, d < 3 * 3 ∧ r < 8 ∧ get_buffer_index ⟨3, 3, 8, false, []⟩ d r = 31) :=
  ⟨(C8_addressing_bijective 3 3 false []).1 4 2 (by decide) (by decide),
   (C8_addressing_bijective 3 3 false []).2.2 31 (by decide)⟩

/-! ## Claim C1: the reverse round trip (corrected) -/

/-- The ping-pong configuration resolves every hold draw to 0. -/
theorem ping_hold (F : Nat) (D : Int) (u : ℚ) : hold (ping_cfg F D) u = 0 := by
  unfold hold ping_cfg
  norm_num

/-- `frameCount` of the ping-pong configuration. -/
theorem ping_cfg_fc (F : Nat) (D : Int) : (ping_cfg F D).frameCount = F := rfl

/-- `loop` of the ping-pong configuration. -/
theorem ping_cfg_loop (F : Nat) (D : Int) : (ping_cfg F D).loop = false := rfl

/-- The step length of the ping-pong configuration is the duration
floor-divided by `2F - 1`. -/
theorem ping_fm (F : Nat) (D : Int) :
    frame_millis (ping_cfg F D) = Int.fdiv D (2 * (F : Int) - 1) := by
  unfold frame_millis ping_cfg
  norm_num
  ring_nf

/-- The expected state below the turning point, explicitly. -/
theorem ping_state_lt (F k : Nat) (hk : k < F) :
    ping_state F k = ⟨true, false, (k : Int), 0⟩ := by
  have h : ¬ F ≤ k := by omega
  simp [ping_state, ping_frame, hk, h]

/-- The expected state from the turning point on, explicitly. -/
theorem ping_state_ge (F k : Nat) (hk : F ≤ k) :
    ping_state F k = ⟨true, true, 2 * (F : Int) - 2 - (k : Int), 0⟩ := by
  have h : ¬ k < F := by omega
  simp [ping_state, ping_frame, hk, h]

/-- The schedule along the round trip: from the expected state after `k`
steps, the next advance is due at `(k+1)` step lengths after start. -/
theorem ping_next (F : Nat) (D : Int) (k : Nat) (hF : 2 ≤ F) (hk : k ≤ 2 * F - 2) :
    next_millis (ping_cfg F D) (ping_state F k) 0 0 =
      ((k : Int) + 1) * frame_millis (ping_cfg F D) := by
  by_cases hkF : k < F
  · rw [ping_state_lt F k hkF]
    simp [next_millis, ping_hold, ping_cfg_loop]
    try ring
  · rw [ping_state_ge F k (by omega)]
    simp [next_millis, ping_hold, ping_cfg_loop, ping_cfg_fc]
    exact Or.inl (by ring)

/-- One due `advance_frame` strictly inside the round trip moves the
expected state `k` to the expected state `k+1`. -/
theorem ping_step_mid (F : Nat) (D : Int) (k : Nat) (hF : 2 ≤ F)
    (hm : 1 ≤ frame_millis (ping_cfg F D)) (hk : k < 2 * F - 2) :
    advance_frame (ping_cfg F D) (ping_state F k)
      (((k : Int) + 1) * frame_millis (ping_cfg F D)) 0 0 = ping_state F (k + 1) := by
  have hsa : should_advance (ping_cfg F D) (ping_state F k)
      (((k : Int) + 1) * frame_millis (ping_cfg F D)) 0 0 = true := by
    unfold should_advance
    rw [ping_next F D k hF (by omega)]
    have hpos : 0 < ((k : Int) + 1) * frame_millis (ping_cfg F D) :=
      mul_pos (by positivity) (by omega)
    simp [current_millis, ping_state, hpos]
  rw [advance_frame, if_neg (by simp [hsa])]
  by_cases hkF : k < F
  · rw [ping_state_lt F k hkF]
    by_cases hlast : k = F - 1
    · have hcond : ((⟨true, false, (k : Int), 0⟩ : AnimState).frameId =
          ((ping_cfg F D).frameCount : Int) - 1 ∧ (ping_cfg F D).reverse = true ∧
          (⟨true, false, (k : Int), 0⟩ : AnimState).isReversing = false) := by
        refine ⟨?_, rfl, rfl⟩
        show (k : Int) = (F : Int) - 1
        omega
      rw [if_pos hcond, ping_state_ge F (k + 1) (by omega)]
      simp only [AnimState.mk.injEq, ping_cfg_fc]
      refine ⟨trivial, trivial, ?_, trivial⟩
      push_cast
      omega
    · have hcond : ¬((⟨true, false, (k : Int), 0⟩ : AnimState).frameId =
          ((ping_cfg F D).frameCount : Int) - 1 ∧ (ping_cfg F D).reverse = true ∧
          (⟨true, false, (k : Int), 0⟩ : AnimState).isReversing = false) := by
        simp only [ping_cfg_fc]
        rintro ⟨h1, -, -⟩
        have : (k : Int) = (F : Int) - 1 := h1
        omega
      rw [if_neg hcond]
      have hil : is_last_frame (ping_cfg F D) ⟨true, false, (k : Int), 0⟩ = false := by
        unfold is_last_frame
        simp only [ping_cfg_fc]
        norm_num
        omega
      rw [if_neg (by simp [hil]), if_neg (by simp [hil])]
      rw [ping_state_lt F (k + 1) (by omega)]
      simp only [AnimState.mk.injEq]
      refine ⟨trivial, trivial, ?_, trivial⟩
      norm_num
  · rw [ping_state_ge F k (by omega)]
    have hcond : ¬((⟨true, true, 2 * (F : Int) - 2 - (k : Int), 0⟩ : AnimState).frameId =
        ((ping_cfg F D).frameCount : Int) - 1 ∧ (ping_cfg F D).reverse = true ∧
        (⟨true, true, 2 * (F : Int) - 2 - (k : Int), 0⟩ : AnimState).isReversing = false) := by
      rintro ⟨-, -, h⟩
      exact absurd h (by simp)
    rw [if_neg hcond]
    have hil : is_last_frame (ping_cfg F D)
        ⟨true, true, 2 * (F : Int) - 2 - (k : Int), 0⟩ = false := by
      unfold is_last_frame
      norm_num
      omega
    rw [if_neg (by simp [hil]), if_neg (by simp [hil])]
    rw [ping_state_ge F (k + 1) (by omega)]
    simp only [AnimState.mk.injEq]
    refine ⟨trivial, trivial, ?_, trivial⟩
    norm_num
    push_cast
    ring

/-- The due `advance_frame` at the end of the round trip (`k = 2F - 2`,
reversing, frame 0, `loop = false`) stops the animation. -/
theorem ping_step_last (F : Nat) (D : Int) (hF : 2 ≤ F)
    (hm : 1 ≤ frame_millis (ping_cfg F D)) :
    advance_frame (ping_cfg F D) (ping_state F (2 * F - 2))
      ((((2 * F - 2 : Nat) : Int) + 1) * frame_millis (ping_cfg F D)) 0 0 = stopped := by
  have hsa : should_advance (ping_cfg F D) (ping_state F (2 * F - 2))
      ((((2 * F - 2 : Nat) : Int) + 1) * frame_millis (ping_cfg F D)) 0 0 = true := by
    unfold should_advance
    rw [ping_next F D (2 * F - 2) hF (le_refl _)]
    have hpos : 0 < (((2 * F - 2 : Nat) : Int) + 1) * frame_millis (ping_cfg F D) :=
      mul_pos (by positivity) (by omega)
    simp [current_millis, ping_state, hpos]
  rw [advance_frame, if_neg (by simp [hsa])]
  have hzero : ping_state F (2 * F - 2) = ⟨true, true, 0, 0⟩ := by
    rw [ping_state_ge F (2 * F - 2) (by omega)]
    simp only [AnimState.mk.injEq]
    refine ⟨trivial, trivial, ?_, trivial⟩
    push_cast
    omega
  rw [hzero]
  have hcond : ¬((⟨true, true, 0, 0⟩ : AnimState).frameId =
      ((ping_cfg F D).frameCount : Int) - 1 ∧ (ping_cfg F D).reverse = true ∧
      (⟨true, true, 0, 0⟩ : AnimState).isReversing = false) := by
    rintro ⟨-, -, h⟩
    exact absurd h (by simp)
  rw [if_neg hcond]
  have hil : is_last_frame (ping_cfg F D) ⟨true, true, 0, 0⟩ = true := by
    unfold is_last_frame
    norm_num
  rw [if_pos ⟨hil, rfl⟩]

/-- The event trace follows the expected states throughout the round
trip. -/
theorem ping_run_eq (F : Nat) (D : Int) (hF : 2 ≤ F)
    (hm : 1 ≤ frame_millis (ping_cfg F D)) :
    ∀ k, k ≤ 2 * F - 2 → ping_run F D k = ping_state F k := by
  intro k
  induction k with
  | zero =>
    intro _
    rw [show ping_run F D 0 = play 0 from rfl, ping_state_lt F 0 (by omega)]
    rfl
  | succ k ih =>
    intro hk1
    have hk : k < 2 * F - 2 := by omega
    show advance_frame (ping_cfg F D) (ping_run F D k)
      (next_millis (ping_cfg F D) (ping_run F D k) 0 0) 0 0 = _
    rw [ih (by omega), ping_next F D k hF (by omega), ping_step_mid F D k hF hm hk]

/-- Counterexample to C1 as stated: with a single frame (`F = 1`,
`D = 1000` ms, `reverse = true`), the claimed round trip would show frame
0 for one step and stop; instead the due advance at 1000 ms turns into
the reverse pass at frame index `-1` and the animation keeps playing. -/
theorem C1_counterexample :
    ping_run 1 1000 1 = ⟨true, true, -1, 0⟩ ∧ ping_run 1 1000 1 ≠ stopped := by
  refine ⟨by decide, by decide⟩

/-- C1 (amended to `F ≥ 2` and a positive step length, and with
`loop = false` as in the claim scenario): after `play()`, the round trip
has `2F - 1` steps of length `(D*1000)/(2F-1)` ms each — the `k`-th
advance is due at `(k+1)` step lengths from start — visiting frame
indices `0, 1, ..., F-1, F-2, ..., 1, 0` (`ping_frame`), forward up to
`F-1` and reversing afterwards, and the animation then enters the stopped
state (not playing, frame 0, direction forward). `D` is the duration in
milliseconds (`duration * 1000`). -/
theorem C1_reverse_round_trip (F : Nat) (D : Int) (hF : 2 ≤ F)
    (hm : 1 ≤ frame_millis (ping_cfg F D)) :
    frame_millis (ping_cfg F D) = Int.fdiv D (2 * (F : Int) - 1) ∧
    (∀ k, k ≤ 2 * F - 2 →
      ping_run F D k =
        { isPlaying := true, isReversing := decide (F ≤ k),
          frameId := ping_frame F k, startMillis := 0 } ∧
      next_millis (ping_cfg F D) (ping_run F D k) 0 0 =
        ((k : Int) + 1) * frame_millis (ping_cfg F D)) ∧
    ping_run F D (2 * F - 1) = stopped := by
  refine ⟨ping_fm F D, fun k hk => ⟨ping_run_eq F D hF hm k hk, ?_⟩, ?_⟩
  · rw [ping_run_eq F D hF hm k hk, ping_next F D k hF hk]
  · have h1 : 2 * F - 1 = (2 * F - 2) + 1 := by omega
    rw [h1]
    show advance_frame (ping_cfg F D) (ping_run F D (2 * F - 2))
      (next_millis (ping_cfg F D) (ping_run F D (2 * F - 2)) 0 0) 0 0 = _
    rw [ping_run_eq F D hF hm (2 * F - 2) (le_refl _),
      ping_next F D (2 * F - 2) hF (le_refl _), ping_step_last F D hF hm]

/-- Witness for C1 at the claim scenario `frames = 4`,
`duration = 2.0 s`: the step length is 285 ms, the trace visits frames
0,1,2,3,2,1,0 (checked here at steps 3 and 6, i.e. timestamps 855 ms and
1710 ms), and the animation then stops. -/
theorem C1_reverse_round_trip_witness :
    frame_millis (ping_cfg 4 2000) = 285 ∧
    ping_run 4 2000 3 =
      { isPlaying := true, isReversing := decide (4 ≤ 3),
        frameId := ping_frame 4 3, startMillis := 0 } ∧
    ping_run 4 2000 6 =
      { isPlaying := true, isReversing := decide (4 ≤ 6),
        frameId := ping_frame 4 6, startMillis := 0 } ∧
    ping_run 4 2000 7 = stopped :=
  ⟨((C1_reverse_round_trip 4 2000 (by decide) (by decide)).1).trans (by decide),
   ((C1_reverse_round_trip 4 2000 (by decide) (by decide)).2.1 3 (by decide)).1,
   ((C1_reverse_round_trip 4 2000 (by decide) (by decide)).2.1 6 (by decide)).1,
   (C1_reverse_round_trip 4 2000 (by decide) (by decide)).2.2⟩

/-! ## Claim C10: mirror and flip are involutions -/

/-- What the inner mirror loop has done after `k` of its `width / 2`
swaps: positions `x < k` and their partners `width - k ≤ x < width` on
row `y` hold the reflected pixel, everything else is untouched. -/
theorem mirror_x_loop_spec (g : Grid) (w y : Nat) :
    ∀ k, 2 * k ≤ w → ∀ i j,
      mirror_x_loop g w y k i j =
        if j = y ∧ (i < k ∨ (w - k ≤ i ∧ i < w)) then g (w - 1 - i) j else g i j := by
  intro k
  induction k with
  | zero =>
    intro _ i j
    rw [mirror_x_loop, if_neg]
    rintro ⟨-, h | h⟩ <;> omega
  | succ k ih =>
    intro hk i j
    have hk' : 2 * k ≤ w := by omega
    rw [mirror_x_loop, swap_pixels]
    by_cases h1 : i = w - k - 1 ∧ j = y
    · rw [if_pos h1, ih hk', if_neg (by rintro ⟨-, h | h⟩ <;> omega)]
      obtain ⟨hi, hj⟩ := h1
      rw [if_pos ⟨hj, by omega⟩]
      have he : w - 1 - i = k := by omega
      rw [he, hj]
    · rw [if_neg h1]
      by_cases h2 : i = k ∧ j = y
      · rw [if_pos h2, ih hk', if_neg (by rintro ⟨-, h | h⟩ <;> omega)]
        obtain ⟨hi, hj⟩ := h2
        rw [if_pos ⟨hj, by omega⟩]
        have he : w - 1 - i = w - k - 1 := by omega
        rw [he, hj]
      · rw [if_neg h2, ih hk']
        refine if_congr ?_ rfl rfl
        constructor
        · rintro ⟨hj, hd⟩
          exact ⟨hj, by omega⟩
        · rintro ⟨hj, hd⟩
          have hi1 : i ≠ w - k - 1 := fun h => h1 ⟨h, hj⟩
          have hi2 : i ≠ k := fun h => h2 ⟨h, hj⟩
          exact ⟨hj, by omega⟩

/-- The full inner mirror loop reflects row `y` horizontally. -/
theorem mirror_x_loop_full (g : Grid) (w y : Nat) (i j : Nat) :
    mirror_x_loop g w y (w / 2) i j =
      if j = y ∧ i < w then g (w - 1 - i) j else g i j := by
  rw [mirror_x_loop_spec g w y (w / 2) (by omega)]
  by_cases hj : j = y
  · by_cases hi : i < w
    · by_cases hd : i < w / 2 ∨ (w - w / 2 ≤ i ∧ i < w)
      · rw [if_pos ⟨hj, hd⟩, if_pos ⟨hj, hi⟩]
      · rw [if_neg (by tauto), if_pos ⟨hj, hi⟩]
        have he : w - 1 - i = i := by omega
        rw [he]
    · rw [if_neg (by rintro ⟨-, h | ⟨-, h⟩⟩ <;> omega), if_neg (by tauto)]
  · rw [if_neg (by tauto), if_neg (by tauto)]

/-- The outer mirror loop reflects every row below `n` horizontally. -/
theorem mirror_y_loop_spec (g : Grid) (w : Nat) :
    ∀ n i j, mirror_y_loop g w n i j =
      if j < n ∧ i < w then g (w - 1 - i) j else g i j := by
  intro n
  induction n with
  | zero =>
    intro i j
    rw [mirror_y_loop, if_neg (by rintro ⟨h, -⟩; omega)]
  | succ n ih =>
    intro i j
    rw [mirror_y_loop, mirror_x_loop_full]
    by_cases hj : j = n
    · subst hj
      by_cases hi : i < w
      · rw [if_pos ⟨rfl, hi⟩, ih, if_neg (by rintro ⟨h, -⟩; omega),
          if_pos ⟨by omega, hi⟩]
      · rw [if_neg (by tauto), ih, if_neg (by tauto), if_neg (by tauto)]
    · rw [if_neg (by tauto), ih]
      refine if_congr ?_ rfl rfl
      constructor
      · rintro ⟨h1, h2⟩
        exact ⟨by omega, h2⟩
      · rintro ⟨h1, h2⟩
        exact ⟨by omega, h2⟩

/-- What the inner flip loop has done after `k` of its `width` swaps on
the row pair `(y, height - y - 1)` (with `2y + 1 < height` so the rows
are distinct): columns `x < k` of the two rows are exchanged. -/
theorem flip_x_loop_spec (g : Grid) (h y : Nat) (hy : 2 * y + 1 < h) :
    ∀ k i j, flip_x_loop g h y k i j =
      if i < k ∧ j = y then g i (h - y - 1)
      else if i < k ∧ j = h - y - 1 then g i y
      else g i j := by
  intro k
  induction k with
  | zero =>
    intro i j
    rw [flip_x_loop, if_neg (by rintro ⟨h, -⟩; omega),
      if_neg (by rintro ⟨h, -⟩; omega)]
  | succ k ih =>
    intro i j
    rw [flip_x_loop, swap_pixels]
    by_cases h1 : i = k ∧ j = h - y - 1
    · rw [if_pos h1, ih, if_neg (by rintro ⟨h, -⟩; omega),
        if_neg (by rintro ⟨h, -⟩; omega)]
      obtain ⟨hi, hj⟩ := h1
      rw [if_neg (by rintro ⟨-, h⟩; omega), if_pos ⟨by omega, hj⟩, hi]
    · rw [if_neg h1]
      by_cases h2 : i = k ∧ j = y
      · rw [if_pos h2, ih, if_neg (by rintro ⟨h, -⟩; omega),
          if_neg (by rintro ⟨h, -⟩; omega)]
        obtain ⟨hi, hj⟩ := h2
        rw [if_pos ⟨by omega, hj⟩, hi]
      · rw [if_neg h2, ih]
        by_cases hjy : j = y
        · have hik : i ≠ k := fun h => h2 ⟨h, hjy⟩
          refine if_congr ⟨fun hc => ⟨by omega, hc.2⟩, fun hc => ⟨by omega, hc.2⟩⟩
            rfl ?_
          rw [if_neg (by rintro ⟨-, h⟩; omega), if_neg (by rintro ⟨-, h⟩; omega)]
        · have houter : ∀ m : Nat, ¬(i < m ∧ j = y) := fun m hc => hjy hc.2
          rw [if_neg (houter k), if_neg (houter (k + 1))]
          by_cases hjy' : j = h - y - 1
          · have hik : i ≠ k := fun h => h1 ⟨h, hjy'⟩
            exact if_congr ⟨fun hc => ⟨by omega, hc.2⟩, fun hc => ⟨by omega, hc.2⟩⟩
              rfl rfl
          · have hinner : ∀ m : Nat, ¬(i < m ∧ j = h - y - 1) := fun m hc => hjy' hc.2
            rw [if_neg (hinner k), if_neg (hinner (k + 1))]

/-- The outer flip loop exchanges the top `n` rows with their mirror
rows. -/
theorem flip_y_loop_spec (g : Grid) (w h : Nat) :
    ∀ n, 2 * n ≤ h → ∀ i j, flip_y_loop g w h n i j =
      if i < w ∧ (j < n ∨ (h - n ≤ j ∧ j < h)) then g i (h - 1 - j) else g i j := by
  intro n
  induction n with
  | zero =>
    intro _ i j
    rw [flip_y_loop, if_neg]
    rintro ⟨-, h | h⟩ <;> omega
  | succ n ih =>
    intro hn i j
    have hn' : 2 * n ≤ h := by omega
    rw [flip_y_loop, flip_x_loop_spec _ _ _ (by omega)]
    by_cases hj : j = n
    · by_cases hi : i < w
      · rw [if_pos ⟨hi, hj⟩, ih hn', if_neg (by rintro ⟨-, h | h⟩ <;> omega),
          if_pos ⟨hi, by omega⟩]
        have he : h - 1 - j = h - n - 1 := by omega
        rw [he]
      · rw [if_neg (by tauto), if_neg (by tauto), ih hn',
          if_neg (by tauto), if_neg (by tauto)]
    · rw [if_neg (by tauto)]
      by_cases hj' : j = h - n - 1
      · by_cases hi : i < w
        · rw [if_pos ⟨hi, hj'⟩, ih hn', if_neg (by rintro ⟨-, h | h⟩ <;> omega),
            if_pos ⟨hi, by omega⟩]
          have he : h - 1 - j = n := by omega
          rw [he]
        · rw [if_neg (by tauto), ih hn', if_neg (by tauto), if_neg (by tauto)]
      · rw [if_neg (by tauto), ih hn']
        refine if_congr ?_ rfl rfl
        constructor
        · rintro ⟨hi, hd⟩
          exact ⟨hi, by omega⟩
        · rintro ⟨hi, hd⟩
          exact ⟨hi, by omega⟩

/-- `mirror` keeps the width. -/
theorem mirror_width (r : Renderable) : r.mirror.width = r.width := rfl

/-- `mirror` keeps the height. -/
theorem mirror_height (r : Renderable) : r.mirror.height = r.height := rfl

/-- `flip` keeps the width. -/
theorem flip_width (r : Renderable) : r.flip.width = r.width := rfl

/-- `flip` keeps the height. -/
theorem flip_height (r : Renderable) : r.flip.height = r.height := rfl

/-- Two `Renderable`s with the same dimensions and the same pixels are
equal. -/
theorem Renderable.ext' (a b : Renderable) (hw : a.width = b.width)
    (hh : a.height = b.height) (hp : ∀ i j, a.pix i j = b.pix i j) : a = b := by
  obtain ⟨w1, h1, p1⟩ := a
  obtain ⟨w2, h2, p2⟩ := b
  have hw' : w1 = w2 := hw
  have hh' : h1 = h2 := hh
  subst hw'
  subst hh'
  have hp' : p1 = p2 := funext fun i => funext fun j => hp i j
  rw [hp']

/-- `mirror` acts as the horizontal reflection on the pixel plane. -/
theorem mirror_pix (r : Renderable) (i j : Nat) :
    r.mirror.pix i j =
      if j < r.height ∧ i < r.width then r.pix (r.width - 1 - i) j else r.pix i j :=
  mirror_y_loop_spec r.pix r.width r.height i j

/-- `flip` acts as the vertical reflection on the pixel plane. -/
theorem flip_pix (r : Renderable) (i j : Nat) :
    r.flip.pix i j =
      if i < r.width ∧ j < r.height then r.pix i (r.height - 1 - j) else r.pix i j := by
  show flip_y_loop r.pix r.width r.height (r.height / 2) i j = _
  rw [flip_y_loop_spec r.pix r.width r.height (r.height / 2) (by omega)]
  by_cases hi : i < r.width
  · by_cases hj : j < r.height
    · by_cases hd : j < r.height / 2 ∨ (r.height - r.height / 2 ≤ j ∧ j < r.height)
      · rw [if_pos ⟨hi, hd⟩, if_pos ⟨hi, hj⟩]
      · rw [if_neg (by tauto), if_pos ⟨hi, hj⟩]
        have he : r.height - 1 - j = j := by omega
        rw [he]
    · rw [if_neg (by rintro ⟨-, h | ⟨-, h⟩⟩ <;> omega), if_neg (by tauto)]
  · rw [if_neg (by tauto), if_neg (by tauto)]

/-- C10: `mirror` and `flip` are involutions on the pixel matrix — two
applications of either restore every pixel — and each application leaves
the width and height unchanged. -/
theorem C10_mirror_flip_involutive (r : Renderable) :
    r.mirror.mirror = r ∧ r.flip.flip = r ∧
    r.mirror.width = r.width ∧ r.mirror.height = r.height ∧
    r.flip.width = r.width ∧ r.flip.height = r.height := by
  refine ⟨?_, ?_, rfl, rfl, rfl, rfl⟩
  · refine Renderable.ext' _ _ rfl rfl fun i j => ?_
    show r.mirror.mirror.pix i j = r.pix i j
    rw [mirror_pix, mirror_width, mirror_height, mirror_pix, mirror_pix]
    by_cases hij : j < r.height ∧ i < r.width
    · rw [if_pos hij, if_pos ⟨hij.1, by omega⟩]
      have he : r.width - 1 - (r.width - 1 - i) = i := by omega
      rw [he]
    · rw [if_neg hij, if_neg hij]
  · refine Renderable.ext' _ _ rfl rfl fun i j => ?_
    show r.flip.flip.pix i j = r.pix i j
    rw [flip_pix, flip_width, flip_height, flip_pix, flip_pix]
    by_cases hij : i < r.width ∧ j < r.height
    · rw [if_pos hij, if_pos ⟨hij.1, by omega⟩]
      have he : r.height - 1 - (r.height - 1 - j) = j := by omega
      rw [he]
    · rw [if_neg hij, if_neg hij]

end ProtoPi
